import Mathlib

/-
Shallow embedding of src/engine_finetune.py (MoCA repository).

The file contains two functions: train_one_epoch and evaluate.  External
collaborators (the torch model, criterion, optimizer, loss scaler, the
timm accuracy helper and the sklearn f1_score) are abstracted: each batch
carries the scalar values those collaborators produce on it, while the
control flow, the gradient-accumulation cadence, the metric-logger
bookkeeping, the label-collapsing mapping and the plot-file side effects
are embedded faithfully.  Machine floats are modelled as rationals; the
only float property the code inspects is math.isfinite, modelled by the
LossVal type.  Calls the code makes to its collaborators are recorded in
an event trace so that ordering claims can be stated.  The degenerate
empty-data-loader run (where python would divide by zero while printing
averages) is not modelled; claims about returned metrics assume at least
one batch.
-/

namespace Engine

/-- Modelled from the spec: one meter of the external metric logger
(util.misc.MetricLogger / SmoothedValue), the delegated metric-accumulation
data structure.  An update with value v and weight n adds v * n to the
running total and n to the count; the global average is total / count. -/
structure Meter where
  total : ℚ
  count : ℕ
deriving DecidableEq

def Meter.empty : Meter := ⟨0, 0⟩

def Meter.update (m : Meter) (v : ℚ) (n : ℕ) : Meter :=
  ⟨m.total + v * (n : ℚ), m.count + n⟩

def Meter.global_avg (m : Meter) : ℚ := m.total / (m.count : ℚ)

/-- The scalar loss.item() observed for a batch: either a finite value
(as a rational) or a non-finite one (NaN or an infinity), which is exactly
the distinction math.isfinite makes. -/
inductive LossVal where
  | fin (q : ℚ)
  | nonfin
deriving DecidableEq

def LossVal.isFinite : LossVal → Bool
  | .fin _ => true
  | .nonfin => false

def LossVal.q : LossVal → ℚ
  | .fin x => x
  | .nonfin => 0

/-- One training batch, abstracted over the external model, criterion and
autograd: loss is the value criterion(model(samples), targets).item()
takes on the batch, and grad the gradient contribution that
backpropagating the unscaled loss adds to the optimizer gradient
buffers. -/
structure TrainBatch where
  loss : LossVal
  grad : ℚ
deriving DecidableEq

/-- Observable calls the two functions make to their collaborators, in
program order.  The index i is the 0-based batch index
(data_iter_step). -/
inductive Event where
  | zeroGrad
  | adjustLR (i : ℕ)
  | forward (i : ℕ)
  | scalerCall (i : ℕ) (loss : ℚ) (updateGrad : Bool)
  | optStep (i : ℕ)
  | allReduce (i : ℕ)
  | syncProcesses
  | evalForward (i : ℕ)
deriving DecidableEq

/-- Mutable state train_one_epoch drives: the optimizer gradient buffers
(grad, abstracted to the accumulated scalar contribution), the number of
optimizer parameter updates performed (optSteps), the per-group learning
rates, and the two meters of the metric logger. -/
structure TrainSt where
  grad : ℚ
  optSteps : ℕ
  lrs : List ℚ
  lossMeter : Meter
  lrMeter : Meter
deriving DecidableEq

inductive TrainResult where
  | exited (code : ℕ)
  | finished (metrics : List (String × ℚ)) (s : TrainSt)
deriving DecidableEq

/-- The body of the training loop for batch index i (engine_finetune.py
lines 45-98): adjust the learning rate at the start of each accumulation
group, forward, check finiteness of the loss (sys.exit(1) when
non-finite, modelled by Except.error), divide the loss by accum_iter,
call the loss scaler (which backpropagates and, when update_grad holds,
steps the optimizer), zero the gradients right after an update, update
the loss and lr meters, and all-reduce the loss value.  Returns the
events the iteration emitted. -/
def trainStep (a : ℕ) (lrF : ℕ → ℚ) (i : ℕ) (b : TrainBatch) (s : TrainSt) :
    List Event × Except Unit TrainSt :=
  let lrs1 := if i % a = 0 then s.lrs.map (fun _ => lrF i) else s.lrs
  let evs0 := (if i % a = 0 then [Event.adjustLR i] else []) ++ [Event.forward i]
  match b.loss with
  | LossVal.nonfin => (evs0, Except.error ())
  | LossVal.fin q =>
      let upd := (i + 1) % a = 0
      let g1 := s.grad + b.grad / (a : ℚ)
      (evs0 ++ [Event.scalerCall i (q / (a : ℚ)) (decide upd)]
            ++ (if upd then [Event.optStep i, Event.zeroGrad] else [])
            ++ [Event.allReduce i],
       Except.ok
        { grad := if upd then 0 else g1
          optSteps := if upd then s.optSteps + 1 else s.optSteps
          lrs := lrs1
          lossMeter := s.lossMeter.update q 1
          lrMeter := s.lrMeter.update (lrs1.foldl max 0) 1 })

/-- The training loop from batch index i onwards; Except.error models the
process exiting via sys.exit(1). -/
def trainLoop (a : ℕ) (lrF : ℕ → ℚ) :
    List TrainBatch → ℕ → TrainSt → List Event × Except Unit TrainSt
  | [], _, s => ([], Except.ok s)
  | b :: bs, i, s =>
      match trainStep a lrF i b s with
      | (evs, Except.error ()) => (evs, Except.error ())
      | (evs, Except.ok s') =>
          let r := trainLoop a lrF bs (i + 1) s'
          (evs ++ r.1, r.2)

def initTrainSt (lrs0 : List ℚ) : TrainSt :=
  ⟨0, 0, lrs0, Meter.empty, Meter.empty⟩

/-- train_one_epoch (engine_finetune.py lines 27-103): zero the
gradients, run the loop, synchronize the metric logger between processes
and return the global averages of its meters (the lr meter is registered
first, the loss meter is created by the first update).  a is
args.accum_iter, lrF abstracts lr_sched.adjust_learning_rate, lrs0 the
initial learning rates of the optimizer parameter groups. -/
def train_one_epoch (a : ℕ) (lrF : ℕ → ℚ) (lrs0 : List ℚ)
    (batches : List TrainBatch) : List Event × TrainResult :=
  match trainLoop a lrF batches 0 (initTrainSt lrs0) with
  | (evs, Except.error ()) => (Event.zeroGrad :: evs, TrainResult.exited 1)
  | (evs, Except.ok s) =>
      (Event.zeroGrad :: (evs ++ [Event.syncProcesses]),
       TrainResult.finished
         [("lr", s.lrMeter.global_avg), ("loss", s.lossMeter.global_avg)] s)

/-- True-positive count of class c over paired (target, prediction)
samples. -/
def tpCount (c : ℕ) (t p : List ℕ) : ℕ :=
  ((t.zip p).filter (fun x => x.1 == c && x.2 == c)).length

def fpCount (c : ℕ) (t p : List ℕ) : ℕ :=
  ((t.zip p).filter (fun x => x.2 == c && !(x.1 == c))).length

def fnCount (c : ℕ) (t p : List ℕ) : ℕ :=
  ((t.zip p).filter (fun x => x.1 == c && !(x.2 == c))).length

/-- Modelled from the documented behaviour of the external
sklearn.metrics.f1_score: per-class F1 is 2 TP / (2 TP + FP + FN), taken
as 0 when the denominator is 0 (the zero-division default), here via the
rational convention x / 0 = 0. -/
def f1class (c : ℕ) (t p : List ℕ) : ℚ :=
  (2 * (tpCount c t p : ℚ)) /
    ((2 * tpCount c t p + fpCount c t p + fnCount c t p : ℕ) : ℚ)

/-- Modelled from the documented behaviour of the external
sklearn.metrics.f1_score with average weighted: the per-class F1 scores
of the classes occurring among the true labels, weighted by their support
there (the total support is the number of samples).  Summing the class F1
once per occurrence in the true labels is the same weighting as summing
count times F1 over the distinct classes. -/
def f1_weighted (t p : List ℕ) : ℚ :=
  (t.map (fun c => f1class c t p)).sum / (t.length : ℚ)

/-- The configuration fields of args this file reads. -/
structure Args where
  accum_iter : ℕ
  data : String
deriving DecidableEq

/-- One evaluation batch, abstracted over the external model and helpers:
preds are the argmax predictions of the model output rows, targets the
true labels, acc1 and acc3 the values the timm accuracy helper computes
on the output (top-1 and top-3), loss the cross-entropy value.  The batch
size images.shape[0] equals preds.length. -/
structure EvalBatch where
  preds : List ℕ
  targets : List ℕ
  acc1 : ℚ
  acc3 : ℚ
  loss : ℚ
deriving DecidableEq

inductive EvalError where
  | unboundLocalLabels
  | keyError (k : ℕ)
deriving DecidableEq

inductive EvalResult where
  | ok (metrics : List (String × ℚ))
  | err (e : EvalError)
deriving DecidableEq

/-- State the evaluation loop accumulates: the four meters in their
creation order (F1, loss, acc1, acc3), the per-batch prediction and
target lists, the batch counter and the emitted events. -/
structure EvalSt where
  f1M : Meter
  lossM : Meter
  a1M : Meter
  a3M : Meter
  predsAcc : List (List ℕ)
  targetsAcc : List (List ℕ)
  idx : ℕ
  events : List Event
deriving DecidableEq

/-- The body of the evaluation loop (engine_finetune.py lines 120-144):
forward, append predictions and targets, update the F1 and loss meters
with weight 1 and the acc1 and acc3 meters with weight batch_size. -/
def evalStep (s : EvalSt) (b : EvalBatch) : EvalSt :=
  { f1M := s.f1M.update (f1_weighted b.targets b.preds) 1
    lossM := s.lossM.update b.loss 1
    a1M := s.a1M.update b.acc1 b.preds.length
    a3M := s.a3M.update b.acc3 b.preds.length
    predsAcc := s.predsAcc ++ [b.preds]
    targetsAcc := s.targetsAcc ++ [b.targets]
    idx := s.idx + 1
    events := s.events ++ [Event.evalForward s.idx] }

def initEvalSt : EvalSt :=
  ⟨Meter.empty, Meter.empty, Meter.empty, Meter.empty, [], [], 0, []⟩

/-- The hard-coded label-collapsing dict of engine_finetune.py line 182,
a partial mapping: keys outside it raise KeyError. -/
def collapseMap : ℕ → Option ℕ
  | 0 => some 0
  | 1 => some 1
  | 2 => some 1
  | 3 => some 1
  | 4 => some 0
  | 5 => some 0
  | 6 => some 0
  | _ => none

def collapseVal (k : ℕ) : Except EvalError ℕ :=
  match collapseMap k with
  | some v => Except.ok v
  | none => Except.error (EvalError.keyError k)

/-- The list comprehension mapping every element through the collapsing
dict; it raises at the first missing key. -/
def collapseList : List ℕ → Except EvalError (List ℕ)
  | [] => Except.ok []
  | x :: xs =>
      match collapseVal x with
      | Except.error e => Except.error e
      | Except.ok y =>
          match collapseList xs with
          | Except.error e => Except.error e
          | Except.ok ys => Except.ok (y :: ys)

def plotDir : String := "/niddk-data-central/P2/mae_hr/MAE_Accelerometer/plots/"

def uciLabels : List String :=
  ["Transition", "Walking", "Walking-upstairs", "Walking-downstairs",
   "Sitting", "Standing", "Laying"]

def riseLabels : List String :=
  ["sedentary", "standing", "stepping", "cycling", "primary_lying",
   "secondary_lying", "seated_transport"]

/-- Outcome of evaluate: the returned metric dictionary or the
propagated error, the image files written (in order), the event trace,
and the model parameters after the call (abstracted to a scalar). -/
structure EvalOut where
  result : EvalResult
  files : List String
  events : List Event
  modelParams : ℚ
deriving DecidableEq

/-- evaluate (engine_finetune.py lines 106-208): a no-gradient pass
accumulating the four meters, a synchronize call after the loop, then the
optional confusion-matrix branch: the axis labels are assigned only by
the two dataset-name tests (an unbound local is an error when neither
matches), the first heatmap is always saved in that branch, and under
RISE_collapse_labels the predictions and then the targets are mapped
through the collapsing dict (KeyError propagates) before the second,
binary heatmap is saved.  Returns the meters global averages keyed by
their creation order. -/
def evaluate (args : Args) (modelParams : ℚ) (batches : List EvalBatch)
    (confusion_matrix_plot RISE_collapse_labels : Bool)
    (plot_save_name plot_title : String) : EvalOut :=
  let s := batches.foldl evalStep initEvalSt
  let events := s.events ++ [Event.syncProcesses]
  let metrics := [("F1", s.f1M.global_avg), ("loss", s.lossM.global_avg),
                  ("acc1", s.a1M.global_avg), ("acc3", s.a3M.global_avg)]
  if confusion_matrix_plot then
    let preds_list := s.predsAcc.flatten
    let targets_list := s.targetsAcc.flatten
    let labels0 : Option (List String) :=
      if args.data = "UCIHAR" then some uciLabels else none
    let labels1 : Option (List String) :=
      if args.data = "RISE" then some riseLabels else labels0
    match labels1 with
    | none => ⟨EvalResult.err EvalError.unboundLocalLabels, [], events, modelParams⟩
    | some _ =>
        let file1 := plotDir ++ plot_save_name ++ "_confusion_matrix.png"
        if RISE_collapse_labels then
          match collapseList preds_list with
          | Except.error e => ⟨EvalResult.err e, [file1], events, modelParams⟩
          | Except.ok _ =>
              match collapseList targets_list with
              | Except.error e => ⟨EvalResult.err e, [file1], events, modelParams⟩
              | Except.ok _ =>
                  ⟨EvalResult.ok metrics,
                   [file1, plotDir ++ plot_save_name ++ "_bin_confusion_matrix.png"],
                   events, modelParams⟩
        else ⟨EvalResult.ok metrics, [file1], events, modelParams⟩
  else ⟨EvalResult.ok metrics, [], events, modelParams⟩

/-- Index j is the first batch whose loss is non-finite. -/
def firstNonfin (batches : List TrainBatch) (j : ℕ) : Prop :=
  (∃ b, batches[j]? = some b ∧ b.loss.isFinite = false) ∧
    ∀ k, k < j → ∀ b, batches[k]? = some b → b.loss.isFinite = true

/-- Events of the optimizer-update and gradient-clearing kind. -/
def isCadence : Event → Bool
  | Event.optStep _ => true
  | Event.zeroGrad => true
  | _ => false

/-- Events that invoke a cross-process reduction utility
(misc.all_reduce_mean, metric_logger.synchronize_between_processes). -/
def isReduceEv : Event → Bool
  | Event.allReduce _ => true
  | Event.syncProcesses => true
  | _ => false

def isForwardEv : Event → Bool
  | Event.forward _ => true
  | Event.evalForward _ => true
  | _ => false

/-- Gradient contribution of batch j after the division by accum_iter. -/
def contrib (batches : List TrainBatch) (a : ℕ) (j : ℕ) : ℚ :=
  match batches[j]? with
  | some b => b.grad / (a : ℚ)
  | none => 0

/-- The batch index an event belongs to, when it has one. -/
def Event.stepIdx : Event → Option ℕ
  | Event.zeroGrad => none
  | Event.adjustLR i => some i
  | Event.forward i => some i
  | Event.scalerCall i _ _ => some i
  | Event.optStep i => some i
  | Event.allReduce i => some i
  | Event.syncProcesses => none
  | Event.evalForward i => some i

/-! Helper definitions and lemmas about the training loop: derived closed
forms for one iteration, used to rewrite the loop in the claim proofs. -/

/-- Events a successful iteration at index i with finite loss q emits. -/
def stepEvsFin (a i : ℕ) (q : ℚ) : List Event :=
  (if i % a = 0 then [Event.adjustLR i] else []) ++ [Event.forward i]
    ++ ([Event.scalerCall i (q / (a : ℚ)) (decide ((i + 1) % a = 0))]
    ++ ((if (i + 1) % a = 0 then [Event.optStep i, Event.zeroGrad] else [])
    ++ [Event.allReduce i]))

/-- Events an iteration at index i that hits a non-finite loss emits. -/
def stepEvsBad (a i : ℕ) : List Event :=
  (if i % a = 0 then [Event.adjustLR i] else []) ++ [Event.forward i]

/-- The training state after a successful iteration at index i. -/
def nextSt (a : ℕ) (lrF : ℕ → ℚ) (i : ℕ) (b : TrainBatch) (q : ℚ) (s : TrainSt) :
    TrainSt :=
  { grad := if (i + 1) % a = 0 then 0 else s.grad + b.grad / (a : ℚ)
    optSteps := if (i + 1) % a = 0 then s.optSteps + 1 else s.optSteps
    lrs := if i % a = 0 then s.lrs.map (fun _ => lrF i) else s.lrs
    lossMeter := s.lossMeter.update q 1
    lrMeter := s.lrMeter.update
      ((if i % a = 0 then s.lrs.map (fun _ => lrF i) else s.lrs).foldl max 0) 1 }

lemma trainStep_fin_eq (a : ℕ) (lrF : ℕ → ℚ) (i : ℕ) (b : TrainBatch) (s : TrainSt)
    (q : ℚ) (hb : b.loss = LossVal.fin q) :
    trainStep a lrF i b s = (stepEvsFin a i q, Except.ok (nextSt a lrF i b q s)) := by
  simp [trainStep, hb, stepEvsFin, nextSt]

lemma trainStep_nonfin_eq (a : ℕ) (lrF : ℕ → ℚ) (i : ℕ) (b : TrainBatch) (s : TrainSt)
    (hb : b.loss = LossVal.nonfin) :
    trainStep a lrF i b s = (stepEvsBad a i, Except.error ()) := by
  simp [trainStep, hb, stepEvsBad]

lemma trainLoop_nil (a : ℕ) (lrF : ℕ → ℚ) (i : ℕ) (s : TrainSt) :
    trainLoop a lrF [] i s = ([], Except.ok s) := rfl

lemma trainLoop_cons_fin (a : ℕ) (lrF : ℕ → ℚ) (i : ℕ) (b : TrainBatch)
    (bs : List TrainBatch) (s : TrainSt) (q : ℚ) (hb : b.loss = LossVal.fin q) :
    trainLoop a lrF (b :: bs) i s =
      (stepEvsFin a i q ++ (trainLoop a lrF bs (i + 1) (nextSt a lrF i b q s)).1,
       (trainLoop a lrF bs (i + 1) (nextSt a lrF i b q s)).2) := by
  rw [trainLoop, trainStep_fin_eq a lrF i b s q hb]

lemma trainLoop_cons_nonfin (a : ℕ) (lrF : ℕ → ℚ) (i : ℕ) (b : TrainBatch)
    (bs : List TrainBatch) (s : TrainSt) (hb : b.loss = LossVal.nonfin) :
    trainLoop a lrF (b :: bs) i s = (stepEvsBad a i, Except.error ()) := by
  rw [trainLoop, trainStep_nonfin_eq a lrF i b s hb]

lemma trainLoop_error_iff (a : ℕ) (lrF : ℕ → ℚ) :
    ∀ (bs : List TrainBatch) (i : ℕ) (s : TrainSt),
      (trainLoop a lrF bs i s).2 = Except.error () ↔
        ∃ b ∈ bs, b.loss.isFinite = false := by
  intro bs
  induction bs with
  | nil => intro i s; simp [trainLoop_nil]
  | cons b bs ih =>
      intro i s
      cases hb : b.loss with
      | nonfin =>
          rw [trainLoop_cons_nonfin a lrF i b bs s hb]
          simp [hb, LossVal.isFinite]
      | fin q =>
          rw [trainLoop_cons_fin a lrF i b bs s q hb]
          simp only []
          rw [ih]
          simp [hb, LossVal.isFinite]

lemma mem_stepEvsFin_iff (a i : ℕ) (q : ℚ) (e : Event) :
    e ∈ stepEvsFin a i q ↔
      (i % a = 0 ∧ e = Event.adjustLR i) ∨ e = Event.forward i ∨
      e = Event.scalerCall i (q / (a : ℚ)) (decide ((i + 1) % a = 0)) ∨
      ((i + 1) % a = 0 ∧ (e = Event.optStep i ∨ e = Event.zeroGrad)) ∨
      e = Event.allReduce i := by
  by_cases h0 : i % a = 0 <;> by_cases h1 : (i + 1) % a = 0 <;>
    simp [stepEvsFin, h0, h1] <;> tauto

lemma mem_stepEvsBad_iff (a i : ℕ) (e : Event) :
    e ∈ stepEvsBad a i ↔ (i % a = 0 ∧ e = Event.adjustLR i) ∨ e = Event.forward i := by
  by_cases h0 : i % a = 0 <;> simp [stepEvsBad, h0]

lemma trainLoop_bad_no_scaler (a : ℕ) (lrF : ℕ → ℚ) (bad : TrainBatch)
    (rest : List TrainBatch) (hbad : bad.loss = LossVal.nonfin) :
    ∀ (pre : List TrainBatch) (i : ℕ) (s : TrainSt),
      (∀ b ∈ pre, b.loss.isFinite = true) →
      (∀ q u, Event.scalerCall (i + pre.length) q u ∉
          (trainLoop a lrF (pre ++ bad :: rest) i s).1) ∧
      Event.optStep (i + pre.length) ∉ (trainLoop a lrF (pre ++ bad :: rest) i s).1 := by
  intro pre
  induction pre with
  | nil =>
      intro i s _
      rw [List.nil_append, trainLoop_cons_nonfin a lrF i bad rest s hbad]
      constructor
      · intro q u hmem
        rw [mem_stepEvsBad_iff] at hmem
        simp at hmem
      · intro hmem
        rw [mem_stepEvsBad_iff] at hmem
        simp at hmem
  | cons p pre ih =>
      intro i s hfin
      obtain ⟨q0, hp⟩ : ∃ q0, p.loss = LossVal.fin q0 := by
        cases hp : p.loss with
        | fin q0 => exact ⟨q0, rfl⟩
        | nonfin =>
            have := hfin p (List.mem_cons_self p pre)
            rw [hp] at this
            simp [LossVal.isFinite] at this
      rw [List.cons_append, trainLoop_cons_fin a lrF i p _ s q0 hp]
      have hlen : i + (p :: pre).length = (i + 1) + pre.length := by
        simp [List.length_cons]; omega
      have ihr := ih (i + 1) (nextSt a lrF i p q0 s)
        (fun b hb => hfin b (List.mem_cons_of_mem p hb))
      constructor
      · intro q u hmem
        simp only [List.mem_append] at hmem
        rcases hmem with hmem | hmem
        · rw [mem_stepEvsFin_iff] at hmem
          rw [hlen] at hmem
          simp at hmem
          omega
        · rw [hlen] at hmem
          exact ihr.1 q u hmem
      · intro hmem
        simp only [List.mem_append] at hmem
        rcases hmem with hmem | hmem
        · rw [mem_stepEvsFin_iff] at hmem
          rw [hlen] at hmem
          simp at hmem
          omega
        · rw [hlen] at hmem
          exact ihr.2 hmem

lemma firstNonfin_decomp (batches : List TrainBatch) (j : ℕ)
    (h : firstNonfin batches j) :
    ∃ bad, bad.loss = LossVal.nonfin ∧
      batches = batches.take j ++ bad :: batches.drop (j + 1) ∧
      (batches.take j).length = j ∧
      (∀ b ∈ batches.take j, b.loss.isFinite = true) := by
  obtain ⟨⟨bad, hget, hbadfin⟩, hpre⟩ := h
  have hj : j < batches.length := by
    rcases List.getElem?_eq_some.mp hget with ⟨hlt, _⟩
    exact hlt
  obtain ⟨hlt, hb⟩ := List.getElem?_eq_some.mp hget
  refine ⟨bad, ?_, ?_, ?_, ?_⟩
  · cases hc : bad.loss with
    | fin q => rw [hc] at hbadfin; simp [LossVal.isFinite] at hbadfin
    | nonfin => rfl
  · conv_lhs => rw [← List.take_append_drop j batches]
    rw [List.drop_eq_getElem_cons hj, hb]
  · exact List.length_take_of_le (le_of_lt hj)
  · intro b hbmem
    obtain ⟨k, hk, hkb⟩ := List.getElem_of_mem hbmem
    have hkj : k < j := by
      have := hk
      simp [List.length_take] at this
      omega
    have : batches[k]? = some b := by
      rw [← hkb]
      rw [List.getElem_take]
      exact (List.getElem?_eq_some.mpr ⟨by omega, rfl⟩)
    exact hpre k hkj b this

/-- C1: in train_one_epoch, a non-finite batch loss makes the process
terminate with exit code 1 (the only exit the function has), and the
termination happens before the loss-scaler call and the optimizer update
of that batch: neither event is in the trace for the first non-finite
batch.  Conversely, when every loss is finite the function never exits. -/
theorem C1_nonfinite_loss_exits (a : ℕ) (lrF : ℕ → ℚ) (lrs0 : List ℚ)
    (batches : List TrainBatch) (ha : 1 ≤ a) :
    ((∃ b ∈ batches, b.loss.isFinite = false) ↔
        (train_one_epoch a lrF lrs0 batches).2 = TrainResult.exited 1) ∧
    (∀ c, (train_one_epoch a lrF lrs0 batches).2 = TrainResult.exited c → c = 1) ∧
    (∀ j, firstNonfin batches j →
      (∀ q u, Event.scalerCall j q u ∉ (train_one_epoch a lrF lrs0 batches).1) ∧
      Event.optStep j ∉ (train_one_epoch a lrF lrs0 batches).1) := by
  rcases hres : trainLoop a lrF batches 0 (initTrainSt lrs0) with ⟨evs, r⟩
  have herr := trainLoop_error_iff a lrF batches 0 (initTrainSt lrs0)
  rw [hres] at herr
  cases r with
  | error u =>
      cases u
      refine ⟨?_, ?_, ?_⟩
      · simp only [train_one_epoch, hres]
        constructor
        · intro _; trivial
        · intro _; exact herr.mp rfl
      · intro c hc
        simp only [train_one_epoch, hres] at hc
        cases hc
        rfl
      · intro j hj
        obtain ⟨bad, hbad, hdecomp, hlen, hprefin⟩ := firstNonfin_decomp batches j hj
        have hmain := trainLoop_bad_no_scaler a lrF bad (batches.drop (j + 1)) hbad
          (batches.take j) 0 (initTrainSt lrs0) hprefin
        rw [← hdecomp, hres] at hmain
        simp only [hlen, Nat.zero_add] at hmain
        constructor
        · intro q u hmem
          simp only [train_one_epoch, hres, List.mem_cons] at hmem
          rcases hmem with hmem | hmem
          · exact Event.noConfusion hmem
          · exact hmain.1 q u hmem
        · intro hmem
          simp only [train_one_epoch, hres, List.mem_cons] at hmem
          rcases hmem with hmem | hmem
          · exact Event.noConfusion hmem
          · exact hmain.2 hmem
  | ok s =>
      refine ⟨?_, ?_, ?_⟩
      · simp only [train_one_epoch, hres]
        constructor
        · intro hex
          exact absurd (herr.mpr hex) (by simp)
        · intro hc
          exact TrainResult.noConfusion hc
      · intro c hc
        simp only [train_one_epoch, hres] at hc
        exact TrainResult.noConfusion hc
      · intro j hj
        obtain ⟨⟨bad, hget, hbadfin⟩, _⟩ := hj
        have : ∃ b ∈ batches, b.loss.isFinite = false :=
          ⟨bad, List.getElem?_mem hget, hbadfin⟩
        exact absurd (herr.mpr this) (by simp)

/-- Witness for C1 at a concrete input: a single batch with non-finite
loss makes train_one_epoch exit with code 1. -/
theorem C1_witness :
    (train_one_epoch 1 (fun _ => 0) [] [⟨LossVal.nonfin, 0⟩]).2 = TrainResult.exited 1 :=
  (C1_nonfinite_loss_exits 1 (fun _ => 0) [] [⟨LossVal.nonfin, 0⟩] (le_refl 1)).1.mp
    ⟨⟨LossVal.nonfin, 0⟩, by decide, rfl⟩

lemma trainLoop_ok_of_fin (a : ℕ) (lrF : ℕ → ℚ) (bs : List TrainBatch) (i : ℕ)
    (s : TrainSt) (hfin : ∀ b ∈ bs, b.loss.isFinite = true) :
    ∃ s', (trainLoop a lrF bs i s).2 = Except.ok s' := by
  cases hr : (trainLoop a lrF bs i s).2 with
  | ok s' => exact ⟨s', rfl⟩
  | error u =>
      cases u
      rw [trainLoop_error_iff] at hr
      obtain ⟨b, hb, hbf⟩ := hr
      rw [hfin b hb] at hbf
      simp at hbf

lemma train_one_epoch_ok (a : ℕ) (lrF : ℕ → ℚ) (lrs0 : List ℚ)
    (batches : List TrainBatch) (hfin : ∀ b ∈ batches, b.loss.isFinite = true) :
    ∃ s, (trainLoop a lrF batches 0 (initTrainSt lrs0)).2 = Except.ok s ∧
      train_one_epoch a lrF lrs0 batches =
        (Event.zeroGrad ::
            ((trainLoop a lrF batches 0 (initTrainSt lrs0)).1 ++ [Event.syncProcesses]),
         TrainResult.finished
           [("lr", s.lrMeter.global_avg), ("loss", s.lossMeter.global_avg)] s) := by
  obtain ⟨s, hs⟩ := trainLoop_ok_of_fin a lrF batches 0 (initTrainSt lrs0) hfin
  refine ⟨s, hs, ?_⟩
  have hpair : trainLoop a lrF batches 0 (initTrainSt lrs0) =
      ((trainLoop a lrF batches 0 (initTrainSt lrs0)).1, Except.ok s) := by
    rw [← hs]
  rw [train_one_epoch, hpair]

lemma trainLoop_scaler_mem (a : ℕ) (lrF : ℕ → ℚ) :
    ∀ (bs : List TrainBatch) (i : ℕ) (s : TrainSt),
      (∀ b ∈ bs, b.loss.isFinite = true) →
      ∀ k b q, bs[k]? = some b → b.loss = LossVal.fin q →
        Event.scalerCall (i + k) (q / (a : ℚ)) (decide ((i + k + 1) % a = 0)) ∈
          (trainLoop a lrF bs i s).1 := by
  intro bs
  induction bs with
  | nil => intro i s _ k b q hk; simp at hk
  | cons b0 bs ih =>
      intro i s hfin k b q hk hb
      obtain ⟨q0, hb0⟩ : ∃ q0, b0.loss = LossVal.fin q0 := by
        cases hc : b0.loss with
        | fin q0 => exact ⟨q0, rfl⟩
        | nonfin =>
            have := hfin b0 (List.mem_cons_self b0 bs)
            rw [hc] at this; simp [LossVal.isFinite] at this
      rw [trainLoop_cons_fin a lrF i b0 bs s q0 hb0]
      simp only [List.mem_append]
      cases k with
      | zero =>
          left
          simp at hk
          subst hk
          rw [hb0] at hb
          cases hb
          rw [mem_stepEvsFin_iff]
          simp
      | succ k =>
          right
          simp only [List.getElem?_cons_succ] at hk
          have := ih (i + 1) (nextSt a lrF i b0 q0 s)
            (fun b' hb' => hfin b' (List.mem_cons_of_mem b0 hb')) k b q hk hb
          have harith : i + 1 + k = i + (k + 1) := by omega
          rw [harith] at this
          exact this

lemma trainLoop_scaler_flag (a : ℕ) (lrF : ℕ → ℚ) :
    ∀ (bs : List TrainBatch) (i : ℕ) (s : TrainSt) (j : ℕ) (q : ℚ) (u : Bool),
      Event.scalerCall j q u ∈ (trainLoop a lrF bs i s).1 →
      u = decide ((j + 1) % a = 0) := by
  intro bs
  induction bs with
  | nil => intro i s j q u h; simp [trainLoop_nil] at h
  | cons b0 bs ih =>
      intro i s j q u h
      cases hb0 : b0.loss with
      | nonfin =>
          rw [trainLoop_cons_nonfin a lrF i b0 bs s hb0] at h
          rw [mem_stepEvsBad_iff] at h
          simp at h
      | fin q0 =>
          rw [trainLoop_cons_fin a lrF i b0 bs s q0 hb0] at h
          simp only [List.mem_append] at h
          rcases h with h | h
          · rw [mem_stepEvsFin_iff] at h
            simp at h
            obtain ⟨hji, -, hu⟩ := h
            subst hji
            exact hu
          · exact ih (i + 1) (nextSt a lrF i b0 q0 s) j q u h

lemma filter_cadence_stepEvsFin (a i : ℕ) (q : ℚ) :
    (stepEvsFin a i q).filter isCadence =
      if (i + 1) % a = 0 then [Event.optStep i, Event.zeroGrad] else [] := by
  by_cases h0 : i % a = 0 <;> by_cases h1 : (i + 1) % a = 0 <;>
    simp [stepEvsFin, isCadence, h0, h1]

lemma trainLoop_filter_cadence (a : ℕ) (lrF : ℕ → ℚ) :
    ∀ (bs : List TrainBatch) (i : ℕ) (s : TrainSt),
      (∀ b ∈ bs, b.loss.isFinite = true) →
      ((trainLoop a lrF bs i s).1).filter isCadence =
        ((List.range' i bs.length).filter (fun j => decide ((j + 1) % a = 0))).flatMap
          (fun j => [Event.optStep j, Event.zeroGrad]) := by
  intro bs
  induction bs with
  | nil => intro i s _; simp [trainLoop_nil]
  | cons b0 bs ih =>
      intro i s hfin
      obtain ⟨q0, hb0⟩ : ∃ q0, b0.loss = LossVal.fin q0 := by
        cases hc : b0.loss with
        | fin q0 => exact ⟨q0, rfl⟩
        | nonfin =>
            have := hfin b0 (List.mem_cons_self b0 bs)
            rw [hc] at this; simp [LossVal.isFinite] at this
      rw [trainLoop_cons_fin a lrF i b0 bs s q0 hb0]
      simp only [List.length_cons, List.range'_succ i bs.length 1, List.filter_append,
        List.filter_cons]
      rw [filter_cadence_stepEvsFin,
        ih (i + 1) (nextSt a lrF i b0 q0 s)
          (fun b' hb' => hfin b' (List.mem_cons_of_mem b0 hb'))]
      by_cases h1 : (i + 1) % a = 0 <;> simp [h1]

/-- C2: gradient accumulation cadence in train_one_epoch: every batch's
loss reaches the loss scaler divided by accum_iter, the update_grad flag
passed to the scaler is true exactly when (data_iter_step + 1) is
divisible by accum_iter, and in the trace the optimizer-update and
gradient-clearing events are exactly one zero_grad before the loop
followed by an optimizer step immediately followed by zero_grad at each
updating batch. -/
theorem C2_grad_accum_cadence (a : ℕ) (lrF : ℕ → ℚ) (lrs0 : List ℚ)
    (batches : List TrainBatch) (ha : 0 < a)
    (hfin : ∀ b ∈ batches, b.loss.isFinite = true) :
    (∀ k b q, batches[k]? = some b → b.loss = LossVal.fin q →
      Event.scalerCall k (q / (a : ℚ)) (decide ((k + 1) % a = 0)) ∈
        (train_one_epoch a lrF lrs0 batches).1) ∧
    (∀ k q u, Event.scalerCall k q u ∈ (train_one_epoch a lrF lrs0 batches).1 →
      (u = true ↔ (k + 1) % a = 0)) ∧
    ((train_one_epoch a lrF lrs0 batches).1.filter isCadence =
      Event.zeroGrad ::
        ((List.range batches.length).filter (fun j => decide ((j + 1) % a = 0))).flatMap
          (fun j => [Event.optStep j, Event.zeroGrad])) := by
  obtain ⟨s, -, heq⟩ := train_one_epoch_ok a lrF lrs0 batches hfin
  rw [heq]
  refine ⟨?_, ?_, ?_⟩
  · intro k b q hk hb
    have := trainLoop_scaler_mem a lrF batches 0 (initTrainSt lrs0) hfin k b q hk hb
    simp only [Nat.zero_add] at this
    simp [this]
  · intro k q u hmem
    simp only [List.mem_cons, List.mem_append] at hmem
    rcases hmem with h | h | h
    · exact Event.noConfusion h
    · have := trainLoop_scaler_flag a lrF batches 0 (initTrainSt lrs0) k q u h
      subst this
      simp
    · simp at h
  · simp only [List.filter_cons, List.filter_append]
    rw [trainLoop_filter_cadence a lrF batches 0 (initTrainSt lrs0) hfin]
    simp [isCadence, List.range_eq_range']

/-- Witness for C2 at a concrete input: with accum_iter 2 and two finite
batches, the cadence events are the initial zero_grad and then an
optimizer step plus zero_grad after the second batch only. -/
theorem C2_witness :
    (train_one_epoch 2 (fun _ => 0) []
        [⟨LossVal.fin 1, 0⟩, ⟨LossVal.fin 2, 0⟩]).1.filter isCadence =
      [Event.zeroGrad, Event.optStep 1, Event.zeroGrad] :=
  ((C2_grad_accum_cadence 2 (fun _ => 0) []
      [⟨LossVal.fin 1, 0⟩, ⟨LossVal.fin 2, 0⟩] (by decide) (by decide)).2.2).trans
    (by decide)

/-- Sum of the scaled gradient contributions of the batches in the
accumulation group still open after m processed batches. -/
def groupSum (batches : List TrainBatch) (a m : ℕ) : ℚ :=
  ∑ j ∈ Finset.Ico (m - m % a) m, contrib batches a j

lemma succ_mod_cases (a i : ℕ) (ha : 0 < a) :
    ((i + 1) % a = 0 ∧ i % a + 1 = a) ∨ (i + 1) % a = i % a + 1 := by
  have hlt : i % a < a := Nat.mod_lt _ ha
  have hdm : a * (i / a) + i % a = i := Nat.div_add_mod i a
  have h1 : (i + 1) % a = (i % a + 1) % a := by
    conv_lhs => rw [← hdm]
    rw [Nat.add_assoc, Nat.mul_add_mod]
  rcases Nat.lt_or_ge (i % a + 1) a with hc | hc
  · right
    rw [h1, Nat.mod_eq_of_lt hc]
  · left
    have heq : i % a + 1 = a := by omega
    rw [h1, heq]
    exact ⟨Nat.mod_self a, rfl⟩

lemma groupSum_succ_zero (batches : List TrainBatch) (a i : ℕ)
    (h : (i + 1) % a = 0) : groupSum batches a (i + 1) = 0 := by
  unfold groupSum
  rw [h, Nat.sub_zero]
  simp

lemma groupSum_succ_ne (batches : List TrainBatch) (a i : ℕ) (ha : 0 < a)
    (h : (i + 1) % a ≠ 0) :
    groupSum batches a (i + 1) = groupSum batches a i + contrib batches a i := by
  rcases succ_mod_cases a i ha with ⟨hz, -⟩ | hs
  · exact absurd hz h
  · unfold groupSum
    have hle : i % a ≤ i := Nat.mod_le i a
    have harith : i + 1 - (i + 1) % a = i - i % a := by
      rw [hs]; omega
    rw [harith, Finset.sum_Ico_succ_top (by omega)]

lemma trainLoop_grad_inv (a : ℕ) (lrF : ℕ → ℚ) (batches : List TrainBatch)
    (ha : 0 < a) (hfin : ∀ b ∈ batches, b.loss.isFinite = true) :
    ∀ (fuel i : ℕ) (s : TrainSt), batches.length - i = fuel → i ≤ batches.length →
      s.grad = groupSum batches a i →
      ∃ s', (trainLoop a lrF (batches.drop i) i s).2 = Except.ok s' ∧
        s'.grad = groupSum batches a batches.length ∧
        s'.optSteps = s.optSteps + (batches.length / a - i / a) := by
  intro fuel
  induction fuel with
  | zero =>
      intro i s hfuel hle hgrad
      have hi : i = batches.length := by omega
      subst hi
      rw [List.drop_length, trainLoop_nil]
      exact ⟨s, rfl, hgrad, by omega⟩
  | succ fuel ih =>
      intro i s hfuel hle hgrad
      have hi : i < batches.length := by omega
      have hdrop : batches.drop i = batches[i] :: batches.drop (i + 1) :=
        List.drop_eq_getElem_cons hi
      have hmem : batches[i] ∈ batches := List.getElem_mem hi
      obtain ⟨q, hq⟩ : ∃ q, (batches[i]).loss = LossVal.fin q := by
        cases hc : (batches[i]).loss with
        | fin q => exact ⟨q, rfl⟩
        | nonfin =>
            have := hfin _ hmem
            rw [hc] at this; simp [LossVal.isFinite] at this
      rw [hdrop, trainLoop_cons_fin a lrF i batches[i] (batches.drop (i + 1)) s q hq]
      have hcontrib : contrib batches a i = (batches[i]).grad / (a : ℚ) := by
        unfold contrib
        rw [List.getElem?_eq_getElem hi]
      have hnextgrad : (nextSt a lrF i batches[i] q s).grad = groupSum batches a (i + 1) := by
        unfold nextSt
        by_cases h1 : (i + 1) % a = 0
        · simp only [h1, if_pos rfl, groupSum_succ_zero batches a i h1]
          simp
        · simp only [if_neg h1]
          rw [groupSum_succ_ne batches a i ha h1, hgrad, hcontrib]
      obtain ⟨s', hs', hgrad', hsteps'⟩ :=
        ih (i + 1) (nextSt a lrF i batches[i] q s) (by omega) (by omega) hnextgrad
      refine ⟨s', ?_, hgrad', ?_⟩
      · simp only []
        exact hs'
      · rw [hsteps']
        have hdivle : (i + 1) / a ≤ batches.length / a :=
          Nat.div_le_div_right (by omega)
        have hidivle : i / a ≤ (i + 1) / a := Nat.div_le_div_right (by omega)
        unfold nextSt
        by_cases h1 : (i + 1) % a = 0
        · have hdvd : a ∣ i + 1 := Nat.dvd_of_mod_eq_zero h1
          have : (i + 1) / a = i / a + 1 := by
            rw [Nat.succ_div, if_pos hdvd]
          simp only [if_pos h1]
          omega
        · have hndvd : ¬ a ∣ (i + 1) := fun hd =>
            h1 (Nat.dvd_iff_mod_eq_zero.mp hd)
          have hdiv : (i + 1) / a = i / a := by
            rw [Nat.succ_div, if_neg hndvd, Nat.add_zero]
          simp only [if_neg h1]
          omega

/-- C9: when the number of batches is not a multiple of accum_iter, the
final partial accumulation group is never applied: train_one_epoch
returns with the optimizer gradient buffers still holding exactly the
scaled contributions of the last length mod accum_iter batches, and the
number of optimizer updates is length div accum_iter (none covering the
partial group). -/
theorem C9_partial_group_grads_remain (a : ℕ) (lrF : ℕ → ℚ) (lrs0 : List ℚ)
    (batches : List TrainBatch) (ha : 0 < a)
    (hfin : ∀ b ∈ batches, b.loss.isFinite = true)
    (hpart : batches.length % a ≠ 0) :
    ∃ m s, (train_one_epoch a lrF lrs0 batches).2 = TrainResult.finished m s ∧
      s.grad = ∑ j ∈ Finset.Ico (batches.length - batches.length % a) batches.length,
        contrib batches a j ∧
      s.optSteps = batches.length / a := by
  obtain ⟨s, hs, heq⟩ := train_one_epoch_ok a lrF lrs0 batches hfin
  have hg0 : (initTrainSt lrs0).grad = groupSum batches a 0 := by
    unfold groupSum
    simp [initTrainSt]
  obtain ⟨s', hs', hgrad', hsteps'⟩ := trainLoop_grad_inv a lrF batches ha hfin
    batches.length 0 (initTrainSt lrs0) (by omega) (by omega) hg0
  rw [List.drop_zero] at hs'
  rw [hs] at hs'
  cases hs'
  refine ⟨_, s, by rw [heq], ?_, ?_⟩
  · rw [hgrad']
    unfold groupSum
    rfl
  · rw [hsteps']
    simp [initTrainSt]

/-- Witness for C9 at a concrete input: accum_iter 2 with three finite
batches of unit gradient leaves half a unit in the buffers and one
optimizer step done. -/
theorem C9_witness :
    ∃ m s, (train_one_epoch 2 (fun _ => 0) []
        [⟨LossVal.fin 1, 1⟩, ⟨LossVal.fin 1, 1⟩, ⟨LossVal.fin 1, 1⟩]).2 =
          TrainResult.finished m s ∧
      s.grad = ∑ j ∈ Finset.Ico
          (([⟨LossVal.fin 1, 1⟩, ⟨LossVal.fin 1, 1⟩, ⟨LossVal.fin 1, 1⟩] :
              List TrainBatch).length -
            ([⟨LossVal.fin 1, 1⟩, ⟨LossVal.fin 1, 1⟩, ⟨LossVal.fin 1, 1⟩] :
              List TrainBatch).length % 2)
          ([⟨LossVal.fin 1, 1⟩, ⟨LossVal.fin 1, 1⟩, ⟨LossVal.fin 1, 1⟩] :
              List TrainBatch).length,
        contrib [⟨LossVal.fin 1, 1⟩, ⟨LossVal.fin 1, 1⟩, ⟨LossVal.fin 1, 1⟩] 2 j ∧
      s.optSteps = ([⟨LossVal.fin 1, 1⟩, ⟨LossVal.fin 1, 1⟩, ⟨LossVal.fin 1, 1⟩] :
          List TrainBatch).length / 2 :=
  C9_partial_group_grads_remain 2 (fun _ => 0) []
    [⟨LossVal.fin 1, 1⟩, ⟨LossVal.fin 1, 1⟩, ⟨LossVal.fin 1, 1⟩]
    (by decide) (by decide) (by decide)

lemma filter_reduce_stepEvsFin (a i : ℕ) (q : ℚ) :
    (stepEvsFin a i q).filter isReduceEv = [Event.allReduce i] := by
  by_cases h0 : i % a = 0 <;> by_cases h1 : (i + 1) % a = 0 <;>
    simp [stepEvsFin, isReduceEv, h0, h1]

lemma trainLoop_filter_reduce (a : ℕ) (lrF : ℕ → ℚ) :
    ∀ (bs : List TrainBatch) (i : ℕ) (s : TrainSt),
      (∀ b ∈ bs, b.loss.isFinite = true) →
      ((trainLoop a lrF bs i s).1).filter isReduceEv =
        (List.range' i bs.length).map Event.allReduce := by
  intro bs
  induction bs with
  | nil => intro i s _; simp [trainLoop_nil]
  | cons b0 bs ih =>
      intro i s hfin
      obtain ⟨q0, hb0⟩ : ∃ q0, b0.loss = LossVal.fin q0 := by
        cases hc : b0.loss with
        | fin q0 => exact ⟨q0, rfl⟩
        | nonfin =>
            have := hfin b0 (List.mem_cons_self b0 bs)
            rw [hc] at this; simp [LossVal.isFinite] at this
      rw [trainLoop_cons_fin a lrF i b0 bs s q0 hb0]
      simp only [List.length_cons, List.range'_succ i bs.length 1, List.filter_append,
        List.map_cons]
      rw [filter_reduce_stepEvsFin,
        ih (i + 1) (nextSt a lrF i b0 q0 s)
          (fun b' hb' => hfin b' (List.mem_cons_of_mem b0 hb'))]
      rfl

lemma evalFold_events : ∀ (batches : List EvalBatch) (s : EvalSt),
    (batches.foldl evalStep s).events =
      s.events ++ (List.range' s.idx batches.length).map Event.evalForward ∧
    (batches.foldl evalStep s).idx = s.idx + batches.length := by
  intro batches
  induction batches with
  | nil => intro s; simp
  | cons b bs ih =>
      intro s
      rw [List.foldl_cons]
      obtain ⟨ihe, ihi⟩ := ih (evalStep s b)
      constructor
      · rw [ihe]
        simp only [evalStep, List.length_cons, List.range'_succ s.idx bs.length 1,
          List.map_cons]
        simp
      · rw [ihi]
        simp [evalStep]
        omega

lemma evaluate_events_eq (args : Args) (w : ℚ) (batches : List EvalBatch)
    (p c : Bool) (n t : String) :
    (evaluate args w batches p c n t).events =
      (List.range batches.length).map Event.evalForward ++ [Event.syncProcesses] := by
  have hfold := (evalFold_events batches initEvalSt).1
  have : (batches.foldl evalStep initEvalSt).events =
      (List.range batches.length).map Event.evalForward := by
    rw [hfold]
    simp [initEvalSt, List.range_eq_range']
  unfold evaluate
  repeat' split
  all_goals simp only []
  all_goals rw [this]
  all_goals repeat' split
  all_goals rfl

/-- C6 counterexample: the claim that the cross-process reduction
utilities are invoked only after the batch loop fails on train_one_epoch:
with two finite batches, an all_reduce_mean call (trace position 6)
happens before the second batch is even forwarded (trace position 8), so
a reduction happens during the per-batch iteration. -/
theorem C6_counterexample :
    ¬ (∀ (k j k' j' : ℕ),
        ((train_one_epoch 1 (fun _ => 0) []
            [⟨LossVal.fin 1, 0⟩, ⟨LossVal.fin 1, 0⟩]).1)[k]? =
            some (Event.allReduce j) →
        ((train_one_epoch 1 (fun _ => 0) []
            [⟨LossVal.fin 1, 0⟩, ⟨LossVal.fin 1, 0⟩]).1)[k']? =
            some (Event.forward j') →
        k' < k) := by
  intro h
  have := h 6 0 8 1 (by decide) (by decide)
  omega

/-- C6 amended: the metric-logger synchronization is indeed the single
reduction performed after the batch loop — it is the last event of
train_one_epoch and the only reduction in evaluate, which reduces nothing
during its pass — but train_one_epoch additionally calls the
all_reduce_mean reduction utility once in every batch iteration. -/
theorem C6_amended_reductions (a : ℕ) (lrF : ℕ → ℚ) (lrs0 : List ℚ)
    (batches : List TrainBatch)
    (hfin : ∀ b ∈ batches, b.loss.isFinite = true) :
    (((train_one_epoch a lrF lrs0 batches).1).filter isReduceEv =
      (List.range batches.length).map Event.allReduce ++ [Event.syncProcesses]) ∧
    ((train_one_epoch a lrF lrs0 batches).1.getLast? = some Event.syncProcesses) ∧
    (∀ (args : Args) (w : ℚ) (ebatches : List EvalBatch) (p c : Bool) (n t : String),
      (evaluate args w ebatches p c n t).events =
        (List.range ebatches.length).map Event.evalForward ++ [Event.syncProcesses]) := by
  obtain ⟨s, -, heq⟩ := train_one_epoch_ok a lrF lrs0 batches hfin
  rw [heq]
  refine ⟨?_, ?_, ?_⟩
  · simp only [List.filter_cons, List.filter_append]
    rw [trainLoop_filter_reduce a lrF batches 0 (initTrainSt lrs0) hfin]
    simp [isReduceEv, List.range_eq_range']
  · dsimp only
    rw [← List.cons_append]
    exact List.getLast?_concat _
  · intro args w ebatches p c n t
    exact evaluate_events_eq args w ebatches p c n t

/-- Witness for C6 amended at a concrete input. -/
theorem C6_amended_witness :
    ((train_one_epoch 1 (fun _ => 0) [] [⟨LossVal.fin 1, 0⟩]).1).filter isReduceEv =
      [Event.allReduce 0, Event.syncProcesses] :=
  ((C6_amended_reductions 1 (fun _ => 0) [] [⟨LossVal.fin 1, 0⟩] (by decide)).1).trans
    (by decide)

lemma trainLoop_meters (a : ℕ) (lrF : ℕ → ℚ) :
    ∀ (bs : List TrainBatch) (i : ℕ) (s : TrainSt),
      (∀ b ∈ bs, b.loss.isFinite = true) →
      ∃ s', (trainLoop a lrF bs i s).2 = Except.ok s' ∧
        s'.lossMeter.total = s.lossMeter.total + (bs.map (fun b => b.loss.q)).sum ∧
        s'.lossMeter.count = s.lossMeter.count + bs.length ∧
        s'.lrMeter.count = s.lrMeter.count + bs.length := by
  intro bs
  induction bs with
  | nil => intro i s _; exact ⟨s, rfl, by simp, by simp, by simp⟩
  | cons b0 bs ih =>
      intro i s hfin
      obtain ⟨q0, hb0⟩ : ∃ q0, b0.loss = LossVal.fin q0 := by
        cases hc : b0.loss with
        | fin q0 => exact ⟨q0, rfl⟩
        | nonfin =>
            have := hfin b0 (List.mem_cons_self b0 bs)
            rw [hc] at this; simp [LossVal.isFinite] at this
      rw [trainLoop_cons_fin a lrF i b0 bs s q0 hb0]
      obtain ⟨s', hs', h1, h2, h3⟩ := ih (i + 1) (nextSt a lrF i b0 q0 s)
        (fun b' hb' => hfin b' (List.mem_cons_of_mem b0 hb'))
      refine ⟨s', hs', ?_, ?_, ?_⟩
      · rw [h1]
        simp only [nextSt, Meter.update, List.map_cons, List.sum_cons]
        have : b0.loss.q = q0 := by rw [hb0]; rfl
        rw [this]
        ring
      · rw [h2]
        simp only [nextSt, Meter.update, List.length_cons]
        omega
      · rw [h3]
        simp only [nextSt, Meter.update, List.length_cons]
        omega

lemma evalFold_meters : ∀ (batches : List EvalBatch) (s : EvalSt),
    (batches.foldl evalStep s).f1M.total =
        s.f1M.total + (batches.map (fun b => f1_weighted b.targets b.preds)).sum ∧
    (batches.foldl evalStep s).f1M.count = s.f1M.count + batches.length ∧
    (batches.foldl evalStep s).lossM.total =
        s.lossM.total + (batches.map EvalBatch.loss).sum ∧
    (batches.foldl evalStep s).lossM.count = s.lossM.count + batches.length ∧
    (batches.foldl evalStep s).a1M.total =
        s.a1M.total + (batches.map (fun b => b.acc1 * (b.preds.length : ℚ))).sum ∧
    (batches.foldl evalStep s).a1M.count =
        s.a1M.count + (batches.map (fun b => b.preds.length)).sum ∧
    (batches.foldl evalStep s).a3M.total =
        s.a3M.total + (batches.map (fun b => b.acc3 * (b.preds.length : ℚ))).sum ∧
    (batches.foldl evalStep s).a3M.count =
        s.a3M.count + (batches.map (fun b => b.preds.length)).sum := by
  intro batches
  induction batches with
  | nil => intro s; refine ⟨?_, ?_, ?_, ?_, ?_, ?_, ?_, ?_⟩ <;> simp
  | cons b bs ih =>
      intro s
      rw [List.foldl_cons]
      obtain ⟨h1, h2, h3, h4, h5, h6, h7, h8⟩ := ih (evalStep s b)
      refine ⟨?_, ?_, ?_, ?_, ?_, ?_, ?_, ?_⟩ <;>
        simp only [List.map_cons, List.sum_cons, List.length_cons]
      · rw [h1]; simp [evalStep, Meter.update]; ring
      · rw [h2]; simp [evalStep, Meter.update]; omega
      · rw [h3]; simp [evalStep, Meter.update]; ring
      · rw [h4]; simp [evalStep, Meter.update]; omega
      · rw [h5]; simp [evalStep, Meter.update]; ring
      · rw [h6]; simp [evalStep, Meter.update]; omega
      · rw [h7]; simp [evalStep, Meter.update]; ring
      · rw [h8]; simp [evalStep, Meter.update]; omega

lemma evaluate_noplot_eq (args : Args) (w : ℚ) (batches : List EvalBatch)
    (c : Bool) (n t : String) :
    evaluate args w batches false c n t =
      ⟨EvalResult.ok
          [("F1", (batches.foldl evalStep initEvalSt).f1M.global_avg),
           ("loss", (batches.foldl evalStep initEvalSt).lossM.global_avg),
           ("acc1", (batches.foldl evalStep initEvalSt).a1M.global_avg),
           ("acc3", (batches.foldl evalStep initEvalSt).a3M.global_avg)],
       [], (batches.foldl evalStep initEvalSt).events ++ [Event.syncProcesses], w⟩ :=
  rfl

lemma evaluate_noplot_metrics (args : Args) (w : ℚ) (batches : List EvalBatch)
    (c : Bool) (n t : String) :
    (evaluate args w batches false c n t).result =
      EvalResult.ok
        [("F1", (batches.map (fun b => f1_weighted b.targets b.preds)).sum /
            (batches.length : ℚ)),
         ("loss", (batches.map EvalBatch.loss).sum / (batches.length : ℚ)),
         ("acc1", (batches.map (fun b => b.acc1 * (b.preds.length : ℚ))).sum /
            (((batches.map (fun b => b.preds.length)).sum : ℕ) : ℚ)),
         ("acc3", (batches.map (fun b => b.acc3 * (b.preds.length : ℚ))).sum /
            (((batches.map (fun b => b.preds.length)).sum : ℕ) : ℚ))] := by
  rw [evaluate_noplot_eq]
  obtain ⟨h1, h2, h3, h4, h5, h6, h7, h8⟩ := evalFold_meters batches initEvalSt
  simp only [Meter.global_avg, h1, h2, h3, h4, h5, h6, h7, h8]
  simp [initEvalSt, Meter.empty]

/-- C3: evaluate makes one pass over the loader (one forward event per
batch) and returns the meters global averages keyed F1, loss, acc1, acc3,
where each meter was updated once per batch (acc1 and acc3 with weight
batch_size, F1 and loss with weight one); and train_one_epoch likewise
returns the global averages of its lr and loss meters, each updated once
per batch. -/
theorem C3_returns_global_averages (args : Args) (w : ℚ) (batches : List EvalBatch)
    (c : Bool) (n t : String) (h : batches ≠ []) :
    ((evaluate args w batches false c n t).result =
      EvalResult.ok
        [("F1", (batches.map (fun b => f1_weighted b.targets b.preds)).sum /
            (batches.length : ℚ)),
         ("loss", (batches.map EvalBatch.loss).sum / (batches.length : ℚ)),
         ("acc1", (batches.map (fun b => b.acc1 * (b.preds.length : ℚ))).sum /
            (((batches.map (fun b => b.preds.length)).sum : ℕ) : ℚ)),
         ("acc3", (batches.map (fun b => b.acc3 * (b.preds.length : ℚ))).sum /
            (((batches.map (fun b => b.preds.length)).sum : ℕ) : ℚ))]) ∧
    (((evaluate args w batches false c n t).events.filter isForwardEv).length =
      batches.length) ∧
    (∀ (a : ℕ) (lrF : ℕ → ℚ) (lrs0 : List ℚ) (tb : List TrainBatch),
      (∀ b ∈ tb, b.loss.isFinite = true) →
      ∃ s, (train_one_epoch a lrF lrs0 tb).2 =
          TrainResult.finished
            [("lr", s.lrMeter.global_avg), ("loss", s.lossMeter.global_avg)] s ∧
        s.lossMeter.count = tb.length ∧ s.lrMeter.count = tb.length ∧
        s.lossMeter.total = (tb.map (fun b => b.loss.q)).sum) := by
  refine ⟨evaluate_noplot_metrics args w batches c n t, ?_, ?_⟩
  · rw [evaluate_events_eq]
    simp only [List.filter_append, List.filter_map]
    have hself : List.filter (isForwardEv ∘ Event.evalForward)
        (List.range batches.length) = List.range batches.length :=
      List.filter_eq_self.mpr (fun x _ => rfl)
    simp [hself, isForwardEv]
  · intro a lrF lrs0 tb hfin
    obtain ⟨s, hs, heq⟩ := train_one_epoch_ok a lrF lrs0 tb hfin
    obtain ⟨s', hs', m1, m2, m3⟩ := trainLoop_meters a lrF tb 0 (initTrainSt lrs0) hfin
    rw [hs] at hs'
    injection hs' with hss
    subst hss
    refine ⟨s, ?_, ?_, ?_, ?_⟩
    · rw [heq]
    · simpa [initTrainSt, Meter.empty] using m2
    · simpa [initTrainSt, Meter.empty] using m3
    · simpa [initTrainSt, Meter.empty] using m1

/-- Witness for C3 at a concrete input: two batches produce the expected
averaged metric dictionary. -/
theorem C3_witness :
    (evaluate ⟨1, "UCIHAR"⟩ 0 [⟨[0], [0], 1, 1, 0⟩, ⟨[0, 1], [1, 1], 1/2, 1, 0⟩]
        false false "x" "t").result =
      EvalResult.ok [("F1", 5/6), ("loss", 0), ("acc1", 2/3), ("acc3", 1)] :=
  ((C3_returns_global_averages ⟨1, "UCIHAR"⟩ 0
      [⟨[0], [0], 1, 1, 0⟩, ⟨[0, 1], [1, 1], 1/2, 1, 0⟩] false "x" "t"
      (by decide)).1).trans
    (by norm_num [f1_weighted, f1class, tpCount, fpCount, fnCount])

lemma evaluate_modelParams_eq (args : Args) (w : ℚ) (batches : List EvalBatch)
    (p c : Bool) (n t : String) :
    (evaluate args w batches p c n t).modelParams = w := by
  unfold evaluate
  dsimp only
  repeat' split
  all_goals rfl

/-- C7: evaluate is a no-gradient inference pass: it leaves the model
parameters unchanged and its trace contains no gradient-clearing,
loss-scaler or optimizer-step call for any input. -/
theorem C7_evaluate_no_mutation (args : Args) (w : ℚ) (batches : List EvalBatch)
    (p c : Bool) (n t : String) :
    (evaluate args w batches p c n t).modelParams = w ∧
    ∀ e ∈ (evaluate args w batches p c n t).events,
      e ≠ Event.zeroGrad ∧ (∀ i, e ≠ Event.optStep i) ∧
      ∀ i q u, e ≠ Event.scalerCall i q u := by
  refine ⟨evaluate_modelParams_eq args w batches p c n t, ?_⟩
  intro e he
  rw [evaluate_events_eq] at he
  simp only [List.mem_append, List.mem_map, List.mem_singleton] at he
  rcases he with ⟨i, -, rfl⟩ | rfl
  · exact ⟨by simp, fun i => by simp, fun i q u => by simp⟩
  · exact ⟨by simp, fun i => by simp, fun i q u => by simp⟩

/-- C10: the returned metrics are averaged with different weights: acc1
and acc3 are batch-size-weighted averages while F1 and loss are plain
means over batches; in particular on a concrete two-batch input the
returned F1 (the mean 5/6 of the per-batch weighted F1 scores) differs
from the weighted F1 score 2/3 of the concatenated predictions. -/
theorem C10_metric_weighting (args : Args) (w : ℚ) (batches : List EvalBatch)
    (c : Bool) (n t : String) (h : batches ≠ []) :
    (∃ m, (evaluate args w batches false c n t).result = EvalResult.ok m ∧
      m.lookup "acc1" = some ((batches.map (fun b => b.acc1 * (b.preds.length : ℚ))).sum /
          (((batches.map (fun b => b.preds.length)).sum : ℕ) : ℚ)) ∧
      m.lookup "acc3" = some ((batches.map (fun b => b.acc3 * (b.preds.length : ℚ))).sum /
          (((batches.map (fun b => b.preds.length)).sum : ℕ) : ℚ)) ∧
      m.lookup "F1" = some ((batches.map (fun b => f1_weighted b.targets b.preds)).sum /
          (batches.length : ℚ)) ∧
      m.lookup "loss" = some ((batches.map EvalBatch.loss).sum / (batches.length : ℚ))) ∧
    ((evaluate ⟨1, "UCIHAR"⟩ 0
          [⟨[0], [0], 1, 1, 0⟩, ⟨[0, 1], [1, 1], 1/2, 1, 0⟩] false false "x" "t").result =
        EvalResult.ok [("F1", 5/6), ("loss", 0), ("acc1", 2/3), ("acc3", 1)] ∧
      f1_weighted ([0] ++ [1, 1]) ([0] ++ [0, 1]) = 2/3 ∧
      ((5 : ℚ)/6) ≠ 2/3) := by
  refine ⟨⟨_, evaluate_noplot_metrics args w batches c n t, ?_, ?_, ?_, ?_⟩,
    (evaluate_noplot_metrics ⟨1, "UCIHAR"⟩ 0
        [⟨[0], [0], 1, 1, 0⟩, ⟨[0, 1], [1, 1], 1/2, 1, 0⟩] false "x" "t").trans
      (by norm_num [f1_weighted, f1class, tpCount, fpCount, fnCount]),
    by norm_num [f1_weighted, f1class, tpCount, fpCount, fnCount],
    by norm_num⟩
  · rfl
  · rfl
  · rfl
  · rfl

/-- Witness for C10 at a concrete input: the pooled weighted F1 of the
concatenated lists is 2/3 while the returned mean is 5/6. -/
theorem C10_witness :
    f1_weighted ([0] ++ [1, 1]) ([0] ++ [0, 1]) = 2/3 ∧ ((5 : ℚ)/6) ≠ 2/3 :=
  ⟨(C10_metric_weighting ⟨1, "UCIHAR"⟩ 0
      [⟨[0], [0], 1, 1, 0⟩, ⟨[0, 1], [1, 1], 1/2, 1, 0⟩] false "x" "t"
      (by decide)).2.2.1,
   (C10_metric_weighting ⟨1, "UCIHAR"⟩ 0
      [⟨[0], [0], 1, 1, 0⟩, ⟨[0, 1], [1, 1], 1/2, 1, 0⟩] false "x" "t"
      (by decide)).2.2.2⟩

lemma evalFold_lists : ∀ (batches : List EvalBatch) (s : EvalSt),
    (batches.foldl evalStep s).predsAcc = s.predsAcc ++ batches.map EvalBatch.preds ∧
    (batches.foldl evalStep s).targetsAcc = s.targetsAcc ++ batches.map EvalBatch.targets := by
  intro batches
  induction batches with
  | nil => intro s; simp
  | cons b bs ih =>
      intro s
      rw [List.foldl_cons]
      obtain ⟨ihp, iht⟩ := ih (evalStep s b)
      constructor
      · rw [ihp]; simp [evalStep]
      · rw [iht]; simp [evalStep]

lemma evaluate_plot_nolabels_eq (args : Args) (w : ℚ) (batches : List EvalBatch)
    (c : Bool) (n t : String) (h1 : args.data ≠ "UCIHAR") (h2 : args.data ≠ "RISE") :
    evaluate args w batches true c n t =
      ⟨EvalResult.err EvalError.unboundLocalLabels, [],
       (batches.foldl evalStep initEvalSt).events ++ [Event.syncProcesses], w⟩ := by
  unfold evaluate
  dsimp only
  simp [h1, h2]

lemma evaluate_plot_noncollapse_eq (args : Args) (w : ℚ) (batches : List EvalBatch)
    (n t : String) (hd : args.data = "UCIHAR" ∨ args.data = "RISE") :
    evaluate args w batches true false n t =
      ⟨EvalResult.ok
          [("F1", (batches.foldl evalStep initEvalSt).f1M.global_avg),
           ("loss", (batches.foldl evalStep initEvalSt).lossM.global_avg),
           ("acc1", (batches.foldl evalStep initEvalSt).a1M.global_avg),
           ("acc3", (batches.foldl evalStep initEvalSt).a3M.global_avg)],
       [plotDir ++ n ++ "_confusion_matrix.png"],
       (batches.foldl evalStep initEvalSt).events ++ [Event.syncProcesses], w⟩ := by
  rcases hd with hd | hd <;> (unfold evaluate; dsimp only; simp [hd])

lemma evaluate_plot_collapse_eq (args : Args) (w : ℚ) (batches : List EvalBatch)
    (n t : String) (hd : args.data = "UCIHAR" ∨ args.data = "RISE") :
    evaluate args w batches true true n t =
      (match collapseList ((batches.foldl evalStep initEvalSt).predsAcc.flatten) with
       | Except.error e =>
           ⟨EvalResult.err e, [plotDir ++ n ++ "_confusion_matrix.png"],
            (batches.foldl evalStep initEvalSt).events ++ [Event.syncProcesses], w⟩
       | Except.ok _ =>
           match collapseList ((batches.foldl evalStep initEvalSt).targetsAcc.flatten) with
           | Except.error e =>
               ⟨EvalResult.err e, [plotDir ++ n ++ "_confusion_matrix.png"],
                (batches.foldl evalStep initEvalSt).events ++ [Event.syncProcesses], w⟩
           | Except.ok _ =>
               ⟨EvalResult.ok
                   [("F1", (batches.foldl evalStep initEvalSt).f1M.global_avg),
                    ("loss", (batches.foldl evalStep initEvalSt).lossM.global_avg),
                    ("acc1", (batches.foldl evalStep initEvalSt).a1M.global_avg),
                    ("acc3", (batches.foldl evalStep initEvalSt).a3M.global_avg)],
                [plotDir ++ n ++ "_confusion_matrix.png",
                 plotDir ++ n ++ "_bin_confusion_matrix.png"],
                (batches.foldl evalStep initEvalSt).events ++ [Event.syncProcesses], w⟩) := by
  rcases hd with hd | hd <;> (unfold evaluate; dsimp only; simp [hd])

lemma collapseMap_le6 (k : ℕ) (h : k ≤ 6) :
    collapseMap k = some (if k = 1 ∨ k = 2 ∨ k = 3 then 1 else 0) := by
  interval_cases k <;> rfl

lemma collapseMap_gt6 (k : ℕ) (h : 6 < k) : collapseMap k = none := by
  obtain ⟨m, rfl⟩ : ∃ m, k = m + 7 := ⟨k - 7, by omega⟩
  rfl

lemma collapseList_ok (l : List ℕ) (h : ∀ x ∈ l, x ≤ 6) :
    collapseList l =
      Except.ok (l.map (fun x => if x = 1 ∨ x = 2 ∨ x = 3 then 1 else 0)) := by
  induction l with
  | nil => rfl
  | cons x xs ih =>
      rw [List.map_cons, collapseList, collapseVal,
        collapseMap_le6 x (h x (List.mem_cons_self x xs)),
        ih (fun y hy => h y (List.mem_cons_of_mem x hy))]

lemma collapseList_err (l : List ℕ) (h : ∃ x ∈ l, 6 < x) :
    ∃ v, 6 < v ∧ collapseList l = Except.error (EvalError.keyError v) := by
  induction l with
  | nil => simp at h
  | cons x xs ih =>
      by_cases hx : 6 < x
      · exact ⟨x, hx, by rw [collapseList, collapseVal, collapseMap_gt6 x hx]⟩
      · have hxs : ∃ y ∈ xs, 6 < y := by
          obtain ⟨y, hy, hy6⟩ := h
          rcases List.mem_cons.mp hy with rfl | hy
          · exact absurd hy6 hx
          · exact ⟨y, hy, hy6⟩
        obtain ⟨v, hv, herr⟩ := ih hxs
        refine ⟨v, hv, ?_⟩
        rw [collapseList, collapseVal, collapseMap_le6 x (by omega), herr]

/-- C8: when confusion_matrix_plot is requested with args.data equal to
neither UCIHAR nor RISE, the labels local is never assigned and evaluate
fails with the unbound-local error at heatmap rendering: no file is
written and no metrics are returned. -/
theorem C8_unknown_dataset_unbound_labels (args : Args) (w : ℚ)
    (batches : List EvalBatch) (c : Bool) (n t : String)
    (h1 : args.data ≠ "UCIHAR") (h2 : args.data ≠ "RISE") :
    (evaluate args w batches true c n t).result =
      EvalResult.err EvalError.unboundLocalLabels ∧
    (evaluate args w batches true c n t).files = [] := by
  rw [evaluate_plot_nolabels_eq args w batches c n t h1 h2]
  exact ⟨rfl, rfl⟩

/-- Witness for C8 at a concrete input with an unknown dataset name. -/
theorem C8_witness :
    (evaluate ⟨1, "WISDM"⟩ 0 [⟨[0], [0], 1, 1, 0⟩] true false "x" "t").result =
      EvalResult.err EvalError.unboundLocalLabels :=
  (C8_unknown_dataset_unbound_labels ⟨1, "WISDM"⟩ 0 [⟨[0], [0], 1, 1, 0⟩]
    false "x" "t" (by decide) (by decide)).1

/-- C4 counterexample: the claim that the confusion-matrix branch always
renders two heatmap images is false: with confusion_matrix_plot true but
RISE_collapse_labels false, only one file is written. -/
theorem C4_counterexample :
    ¬ ((evaluate ⟨1, "UCIHAR"⟩ 0 [⟨[0], [0], 1, 1, 0⟩] true false "x" "t").files.length
        = 2) := by
  rw [evaluate_plot_noncollapse_eq ⟨1, "UCIHAR"⟩ 0 [⟨[0], [0], 1, 1, 0⟩] "x" "t"
    (Or.inl rfl)]
  simp

/-- C4 amended: with confusion_matrix_plot true and a recognized dataset
name, evaluate writes one heatmap file at the fixed plots path named from
plot_save_name, and a second, binary one only when RISE_collapse_labels
is true (given in-range labels); with confusion_matrix_plot false no
image file is written. -/
theorem C4_amended_plot_files (args : Args) (w : ℚ) (batches : List EvalBatch)
    (c : Bool) (n t : String)
    (hd : args.data = "UCIHAR" ∨ args.data = "RISE")
    (hvals : c = true →
      ∀ b ∈ batches, (∀ x ∈ b.preds, x ≤ 6) ∧ (∀ x ∈ b.targets, x ≤ 6)) :
    (evaluate args w batches true c n t).files =
      (if c then
        [plotDir ++ n ++ "_confusion_matrix.png",
         plotDir ++ n ++ "_bin_confusion_matrix.png"]
       else [plotDir ++ n ++ "_confusion_matrix.png"]) ∧
    (evaluate args w batches false c n t).files = [] := by
  constructor
  · cases c with
    | false =>
        rw [evaluate_plot_noncollapse_eq args w batches n t hd]
        rfl
    | true =>
        rw [evaluate_plot_collapse_eq args w batches n t hd]
        obtain ⟨hpr, htg⟩ := evalFold_lists batches initEvalSt
        have hple : ∀ x ∈ ((batches.foldl evalStep initEvalSt).predsAcc).flatten, x ≤ 6 := by
          rw [hpr]
          intro x hx
          obtain ⟨l, hl, hxl⟩ := List.mem_flatten.mp hx
          simp only [initEvalSt, List.nil_append, List.mem_map] at hl
          obtain ⟨b, hb, rfl⟩ := hl
          exact ((hvals rfl) b hb).1 x hxl
        have htle : ∀ x ∈ ((batches.foldl evalStep initEvalSt).targetsAcc).flatten, x ≤ 6 := by
          rw [htg]
          intro x hx
          obtain ⟨l, hl, hxl⟩ := List.mem_flatten.mp hx
          simp only [initEvalSt, List.nil_append, List.mem_map] at hl
          obtain ⟨b, hb, rfl⟩ := hl
          exact ((hvals rfl) b hb).2 x hxl
        rw [collapseList_ok _ hple, collapseList_ok _ htle]
        simp
  · rw [evaluate_noplot_eq]

/-- Witness for C4 amended at a concrete input: one file with the
collapse flag off. -/
theorem C4_amended_witness :
    (evaluate ⟨1, "UCIHAR"⟩ 0 [⟨[0], [0], 1, 1, 0⟩] true false "x" "t").files =
      [plotDir ++ "x" ++ "_confusion_matrix.png"] :=
  ((C4_amended_plot_files ⟨1, "UCIHAR"⟩ 0 [⟨[0], [0], 1, 1, 0⟩] false "x" "t"
      (Or.inl rfl) (fun h => absurd h (by decide))).1).trans (by decide)

/-- C5: the binary collapsing step maps every value through the fixed
dict sending 0, 4, 5, 6 to 0 and 1, 2, 3 to 1; on values 0..6 the lookup
always succeeds and evaluate returns its metrics, while any value above 6
makes the missing-key error propagate out of evaluate. -/
theorem C5_collapse_mapping (args : Args) (w : ℚ) (batches : List EvalBatch)
    (n t : String) (hd : args.data = "RISE") :
    (∀ k, k ≤ 6 → collapseMap k = some (if k = 1 ∨ k = 2 ∨ k = 3 then 1 else 0)) ∧
    (∀ k, 6 < k → collapseMap k = none) ∧
    ((∀ b ∈ batches, (∀ x ∈ b.preds, x ≤ 6) ∧ (∀ x ∈ b.targets, x ≤ 6)) →
      ∃ m, (evaluate args w batches true true n t).result = EvalResult.ok m) ∧
    ((∃ b ∈ batches, (∃ x ∈ b.preds, 6 < x) ∨ (∃ x ∈ b.targets, 6 < x)) →
      ∃ v, 6 < v ∧
        (evaluate args w batches true true n t).result =
          EvalResult.err (EvalError.keyError v)) := by
  obtain ⟨hpr, htg⟩ := evalFold_lists batches initEvalSt
  refine ⟨collapseMap_le6, collapseMap_gt6, ?_, ?_⟩
  · intro hvals
    rw [evaluate_plot_collapse_eq args w batches n t (Or.inr hd)]
    have hple : ∀ x ∈ ((batches.foldl evalStep initEvalSt).predsAcc).flatten, x ≤ 6 := by
      rw [hpr]
      intro x hx
      obtain ⟨l, hl, hxl⟩ := List.mem_flatten.mp hx
      simp only [initEvalSt, List.nil_append, List.mem_map] at hl
      obtain ⟨b, hb, rfl⟩ := hl
      exact (hvals b hb).1 x hxl
    have htle : ∀ x ∈ ((batches.foldl evalStep initEvalSt).targetsAcc).flatten, x ≤ 6 := by
      rw [htg]
      intro x hx
      obtain ⟨l, hl, hxl⟩ := List.mem_flatten.mp hx
      simp only [initEvalSt, List.nil_append, List.mem_map] at hl
      obtain ⟨b, hb, rfl⟩ := hl
      exact (hvals b hb).2 x hxl
    rw [collapseList_ok _ hple, collapseList_ok _ htle]
    exact ⟨_, rfl⟩
  · intro hbad
    rw [evaluate_plot_collapse_eq args w batches n t (Or.inr hd)]
    by_cases hpb : ∃ x ∈ ((batches.foldl evalStep initEvalSt).predsAcc).flatten, 6 < x
    · obtain ⟨v, hv, herr⟩ := collapseList_err _ hpb
      rw [herr]
      exact ⟨v, hv, rfl⟩
    · have hple : ∀ x ∈ ((batches.foldl evalStep initEvalSt).predsAcc).flatten, x ≤ 6 := by
        intro x hx
        by_contra hgt
        exact hpb ⟨x, hx, by omega⟩
      have htb : ∃ x ∈ ((batches.foldl evalStep initEvalSt).targetsAcc).flatten, 6 < x := by
        obtain ⟨b, hb, hcase⟩ := hbad
        rcases hcase with ⟨x, hx, hx6⟩ | ⟨x, hx, hx6⟩
        · exfalso
          have : x ∈ ((batches.foldl evalStep initEvalSt).predsAcc).flatten := by
            rw [hpr]
            refine List.mem_flatten.mpr ⟨b.preds, ?_, hx⟩
            simp only [initEvalSt, List.nil_append, List.mem_map]
            exact ⟨b, hb, rfl⟩
          have := hple x this
          omega
        · rw [htg]
          refine ⟨x, List.mem_flatten.mpr ⟨b.targets, ?_, hx⟩, hx6⟩
          simp only [initEvalSt, List.nil_append, List.mem_map]
          exact ⟨b, hb, rfl⟩
      rw [collapseList_ok _ hple]
      obtain ⟨v, hv, herr⟩ := collapseList_err _ htb
      rw [herr]
      exact ⟨v, hv, rfl⟩

/-- Witness for C5 at concrete inputs: in-range labels succeed, the value
9 raises the missing-key error. -/
theorem C5_witness :
    (∃ m, (evaluate ⟨1, "RISE"⟩ 0 [⟨[0], [0], 1, 1, 0⟩] true true "x" "t").result =
      EvalResult.ok m) ∧
    ∃ v, 6 < v ∧
      (evaluate ⟨1, "RISE"⟩ 0 [⟨[9], [1], 1, 1, 0⟩] true true "x" "t").result =
        EvalResult.err (EvalError.keyError v) :=
  ⟨(C5_collapse_mapping ⟨1, "RISE"⟩ 0 [⟨[0], [0], 1, 1, 0⟩] "x" "t" rfl).2.2.1
      (by decide),
   (C5_collapse_mapping ⟨1, "RISE"⟩ 0 [⟨[9], [1], 1, 1, 0⟩] "x" "t" rfl).2.2.2
      ⟨⟨[9], [1], 1, 1, 0⟩, by decide, Or.inl ⟨9, by decide, by decide⟩⟩⟩

end Engine
